import Mathlib

/-!
Verification development for the Structure_threader repository.

The Python sources are shallowly embedded: Python strings become lists of
characters, floating point values become rationals, fallible operations
(negative indexing, int conversion, sys.exit) become Option/Except values,
and the external process results (exit codes, file contents, Gaussian
draws) become explicit parameters of the embedded functions.
-/

set_option linter.unusedVariables false

/-! ## Python string primitives -/

/-- Python strings are modelled as lists of characters. -/
abbrev PyStr := List Char

/-- Split a character list at every character satisfying the test; the
result always has one more piece than the number of matched separators,
mirroring the Python string split with an explicit separator argument. -/
def splitOnP (p : Char → Bool) : PyStr → List PyStr
  | [] => [[]]
  | c :: cs =>
    match splitOnP p cs with
    | [] => [[]]
    | h :: t => if p c then [] :: h :: t else (c :: h) :: t

/-- Python str.split(sep) for a one-character separator. -/
def splitOnChar (sep : Char) (s : PyStr) : List PyStr :=
  splitOnP (· == sep) s

/-- Python str.split() with no argument: split on whitespace and drop the
empty pieces. -/
def pyWhitespaceSplit (s : PyStr) : List PyStr :=
  (splitOnP (fun c => c == ' ' || c == '\t' || c == '\n' || c == '\r') s).filter (· ≠ [])

/-- Python sequence indexing with a possibly negative index; none models an
IndexError. -/
def pyIndex {α : Type} (l : List α) (i : Int) : Option α :=
  if 0 ≤ i then l.get? i.toNat
  else if i.natAbs ≤ l.length then l.get? (l.length - i.natAbs) else none

/-- Python int() restricted to strings of decimal digits, the only shape
the embedded code feeds it; none models a ValueError. -/
def pyInt (s : PyStr) : Option Nat :=
  if s ≠ [] ∧ s.all Char.isDigit then
    some (s.foldl (fun a c => 10 * a + (c.toNat - 48)) 0)
  else none

/-- One decimal digit rendered as a character. -/
def digitChar (d : Nat) : Char := Char.ofNat (48 + d)

/-- Fuel-driven loop computing the decimal digits of a natural number. -/
def natCharsAux : Nat → Nat → List Char
  | 0, _ => []
  | fuel + 1, n => if n = 0 then [] else natCharsAux fuel (n / 10) ++ [digitChar (n % 10)]

/-- Decimal rendering of a natural number: the model of Python str() applied
to the K values and replicate numbers. -/
def natChars (n : Nat) : PyStr :=
  if n = 0 then ['0'] else natCharsAux n n

/-! ## Job dispatcher (structure_threader.py) -/

/-- Which external program the dispatcher wraps. -/
inductive WrappedProg
  | structureProg
  | fastStructure
deriving DecidableEq

/-- The output path handed to the external program by runprogram:
os.path.join(arg.outpath, "K" + str(K) + "_rep" + str(rep_num)) in the
STRUCTURE branch and os.path.join(arg.outpath, "fS_run_K") in the
fastStructure branch. -/
def outputFilePath (prog : WrappedProg) (outpath : PyStr) (K rep : Nat) : PyStr :=
  match prog with
  | .structureProg =>
      outpath ++ '/' :: 'K' :: (natChars K ++ '_' :: 'r' :: 'e' :: 'p' :: natChars rep)
  | .fastStructure =>
      outpath ++ '/' :: ['f', 'S', '_', 'r', 'u', 'n', '_', 'K']

/-- The .stlog path written by the logging branch of runprogram:
os.path.join(arg.outpath, "K" + str(K) + "_rep" + str(rep_num) + ".stlog"). -/
def stlogPath (outpath : PyStr) (K rep : Nat) : PyStr :=
  outpath ++ '/' :: 'K' :: (natChars K ++ '_' :: 'r' :: 'e' :: 'p' :: natChars rep)
    ++ ['.', 's', 't', 'l', 'o', 'g']

/-- Observable outcome of one runprogram call: the returned worker status,
the value of the shared arg.log flag after the call, and the .stlog file
written when that flag ends up set. -/
structure RunOutcome where
  status : Int × Option PyStr
  log : Bool
  logFile : Option PyStr
deriving DecidableEq

/-- runprogram from structure_threader.py. The external process is modelled
by its exit code: on a non-zero code the code sets arg.log to True and
returns (-1, output_file); on a zero code it returns (0, None). Afterwards,
if arg.log is set, a .stlog file for this (K, rep) pair is written. -/
def runprogram (prog : WrappedProg) (outpath : PyStr) (log0 : Bool)
    (K rep : Nat) (returncode : Int) : RunOutcome :=
  let output_file := outputFilePath prog outpath K rep
  let log1 := if returncode ≠ 0 then true else log0
  { status := if returncode ≠ 0 then (-1, some output_file) else (0, none)
    log := log1
    logFile := if log1 then some (stlogPath outpath K rep) else none }

/-- The job grid built by structure_threader: for fastStructure the
replicate list is forced to [1]; then list(itertools.product(Ks,
replicates))[::-1]. -/
def dispatchJobs (Ks replicates : List Nat) (prog : WrappedProg) : List (Nat × Nat) :=
  let reps := if prog = .fastStructure then [1] else replicates
  (Ks.flatMap fun k => reps.map fun r => (k, r)).reverse

/-- The worker pool of structure_threader: Pool(threads).map(runprogram,
jobs), collecting the per-job worker statuses. -/
def poolMap (prog : WrappedProg) (outpath : PyStr) (log0 : Bool)
    (exec : Nat × Nat → Int) (jobs : List (Nat × Nat)) : List (Int × Option PyStr) :=
  jobs.map fun j => (runprogram prog outpath log0 j.1 j.2 (exec j)).status

/-- error_list from structure_threader: the second components of the worker
statuses whose first component is -1. -/
def errorList (pool : List (Int × Option PyStr)) : List (Option PyStr) :=
  (pool.filter fun x => x.1 == -1).map Prod.snd

/-! ## Result harvester (evanno/structureHarvester.py) -/

/-- One parsed STRUCTURE run record, as produced by the harvester core
readFile collaborator: the K of the run and the estimated log-probability
of the data. -/
structure SRun where
  k : Nat
  estLnProbData : ℚ
deriving DecidableEq

/-- What hc.readFile produced for one _f file: a run record, a parse
failure (run is None plus an error string), or an UnexpectedValue
exception carrying the offending field name and raw value. readFile lives
in the external harvesterCore module, so its outcome is an input of the
embedding. -/
inductive ParseOutcome
  | ok (r : SRun)
  | failed (err : PyStr)
  | unexpected (valuename value : PyStr)
deriving DecidableEq

/-- The harvested dataset: data.records as an insertion-ordered mapping
from K to the run records sharing that K, and data.sortedKs. -/
structure HarvestData where
  records : List (Nat × List SRun)
  sortedKs : List Nat
deriving DecidableEq

/-- data.records.setdefault(run.k, []).append(run): append the run to the
entry holding its K, or add a new (k, [run]) entry at the end. -/
def addRecord (recs : List (Nat × List SRun)) (r : SRun) : List (Nat × List SRun) :=
  match recs with
  | [] => [(r.k, [r])]
  | (k, l) :: rest => if k = r.k then (k, l ++ [r]) :: rest else (k, l) :: addRecord rest r

/-- Dictionary lookup in the insertion-ordered records map. -/
def recLookup : List (Nat × List SRun) → Nat → Option (List SRun)
  | [], _ => none
  | (k0, l) :: rest, k => if k0 = k then some l else recLookup rest k

/-- The error message printed by harvestFiles when the _f glob is empty;
it names the results directory. -/
def errNoFiles (resultsdir : PyStr) : PyStr :=
  ("Error, unable to locate any _f files in the results directory ").data ++ resultsdir

/-- The loop body of harvestFiles: group each successfully parsed run under
its K; a parse failure or an UnexpectedValue exception terminates the
process with exit status 1 and a message naming the file. -/
def harvestLoop (recs : List (Nat × List SRun)) :
    List (PyStr × ParseOutcome) → Except (Nat × PyStr) (List (Nat × List SRun))
  | [] => .ok recs
  | (f, .ok r) :: rest => harvestLoop (addRecord recs r) rest
  | (f, .failed err) :: rest =>
      .error (1, ("Error, unable to extract results from file ").data ++ f)
  | (f, .unexpected valuename value) :: rest =>
      .error (1, f ++ (" contains an unexpected value: ").data ++ valuename ++
        (" = ").data ++ value)

/-- harvestFiles from structureHarvester.py: the files argument carries the
glob result (in discovery order) together with the readFile outcome of
each file. An empty glob terminates the process with exit status 1 before
any parsing; otherwise the records are grouped per K and sortedKs is the
sorted key list. -/
def harvestFiles (resultsdir : PyStr) (files : List (PyStr × ParseOutcome)) :
    Except (Nat × PyStr) HarvestData :=
  if files.isEmpty then .error (1, errNoFiles resultsdir)
  else
    match harvestLoop [] files with
    | .error e => .error e
    | .ok recs => .ok ⟨recs, List.insertionSort (· ≤ ·) (recs.map Prod.fst)⟩

/-- The run records of the successfully parsed files, in discovery order. -/
def runsOf (files : List (PyStr × ParseOutcome)) : List SRun :=
  files.filterMap fun e =>
    match e.2 with
    | .ok r => some r
    | _ => none

/-! ## Evanno report writer (structureHarvester.py) -/

/-- The Aggregated Dataset as seen by writeEvannoTableToFile. The derived
per-K maps are populated by the external harvesterCore module, so they are
inputs of the embedding; a Python dict is a partial map. -/
structure EvannoData where
  records : Nat → Option (List SRun)
  sortedKs : List Nat
  estLnProbMeans : Nat → Option ℚ
  estLnProbStdevs : Nat → Option ℚ
  LnPK : Nat → Option ℚ
  LnPPK : Nat → Option ℚ
  deltaK : Nat → Option ℚ

/-- One data row of evanno.txt. The three derivative columns hold either a
formatted number or the literal NA marker. -/
structure EvannoRow where
  k : Nat
  reps : Nat
  mean : ℚ
  stdev : ℚ
  lnPKstr : PyStr
  lnPPKstr : PyStr
  deltaKstr : PyStr
deriving DecidableEq

/-- The conditional rendering in writeEvannoTableToFile: a value present in
the map is formatted with the percent-f format (modelled by fmt), an absent
one renders as the literal NA. -/
def renderOpt (fmt : ℚ → PyStr) (o : Option ℚ) : PyStr :=
  match o with
  | some v => fmt v
  | none => ['N', 'A']

/-- The row loop of writeEvannoTableToFile over sortedKs; a K missing from
records, estLnProbMeans or estLnProbStdevs would raise a KeyError, which
none models. -/
def writeEvannoRowsGo (fmt : ℚ → PyStr) (d : EvannoData) : List Nat → Option (List EvannoRow)
  | [] => some []
  | k :: ks =>
    match d.records k, d.estLnProbMeans k, d.estLnProbStdevs k with
    | some rs, some m, some s =>
      match writeEvannoRowsGo fmt d ks with
      | some rows =>
          some (⟨k, rs.length, m, s, renderOpt fmt (d.LnPK k),
            renderOpt fmt (d.LnPPK k), renderOpt fmt (d.deltaK k)⟩ :: rows)
      | none => none
    | _, _, _ => none

/-- writeEvannoTableToFile from structureHarvester.py, reduced to the data
rows it writes (the preceding header lines are constant text). -/
def writeEvannoTableToFile (fmt : ℚ → PyStr) (d : EvannoData) : Option (List EvannoRow) :=
  writeEvannoRowsGo fmt d d.sortedKs

/-! ## MavericK wrapper (wrappers/maverick_wrapper.py) -/

/-- mav_params_parser scans the parameter file for a thermodynamic_on line
and returns False when its value is f, false or 0; scanning stops at the
first such line, otherwise it continues. A thermodynamic_on line without a
second token would raise an IndexError, which none models. -/
def mav_params_scan : List PyStr → Option Bool
  | [] => some true
  | l :: ls =>
    if ("thermodynamic_on").data.isPrefixOf l then
      match (pyWhitespaceSplit l).get? 1 with
      | none => none
      | some t =>
        let tl := t.map Char.toLower
        if tl = ("f").data ∨ tl = ("false").data ∨ tl = ("0").data then some false
        else mav_params_scan ls
    else mav_params_scan ls

/-- The line scan of mav_alpha_failsafe: the last alpha line and the last
alphaPropSD line win (repeated dict assignment); each value is the second
whitespace token split on commas. A matching line without a second token
raises an IndexError, which none models. -/
def parseAlphaGo : List PyStr → Option (List PyStr) → Option (List PyStr) →
    Option (Option (List PyStr) × Option (List PyStr))
  | [], a, p => some (a, p)
  | l :: ls, a, p =>
    let low := l.map Char.toLower
    if ("alpha\t").data.isPrefixOf low then
      match (pyWhitespaceSplit l).get? 1 with
      | none => none
      | some tok => parseAlphaGo ls (some (splitOnChar ',' tok)) p
    else if ("alphapropsd\t").data.isPrefixOf low then
      match (pyWhitespaceSplit l).get? 1 with
      | none => none
      | some tok => parseAlphaGo ls a (some (splitOnChar ',' tok))
    else parseAlphaGo ls a p

/-- Both parsed alpha-style parameters of the parameter file. -/
def parseAlphaParams (lines : List PyStr) : Option (Option (List PyStr) × Option (List PyStr)) :=
  parseAlphaGo lines none none

/-- The per-parameter check of mav_alpha_failsafe: several values whose
count differs from the K count call sys.exit(0), modelled as .error 0;
otherwise the parameter stays False (none) or becomes the K-indexed map. -/
def checkAlphaParam (vals : Option (List PyStr)) (k_list : List Nat) :
    Except Nat (Option (List (Nat × PyStr))) :=
  match vals with
  | none => .ok none
  | some v =>
    if 1 < v.length then
      if v.length ≠ k_list.length then .error 0
      else .ok (some (k_list.zip v))
    else .ok none

/-- The dictionary returned by mav_alpha_failsafe. -/
structure AlphaFailsafe where
  alpha : Option (List (Nat × PyStr))
  alphaPropSD : Option (List (Nat × PyStr))
deriving DecidableEq

/-- mav_alpha_failsafe from maverick_wrapper.py: outer none is an uncaught
exception, .error c is sys.exit(c), .ok is a normal return. -/
def mav_alpha_failsafe (lines : List PyStr) (k_list : List Nat) :
    Option (Except Nat AlphaFailsafe) :=
  (parseAlphaParams lines).map fun ap =>
    match checkAlphaParam ap.1 k_list with
    | .error c => .error c
    | .ok a2 =>
      match checkAlphaParam ap.2 k_list with
      | .error c => .error c
      | .ok p2 => .ok ⟨a2, p2⟩

/-- One line of a file as read by readline/readlines keeps its newline. -/
def lineText (l : PyStr) : PyStr := l ++ ['\n']

/-- The full text of a file given as a list of lines. -/
def fileText (lines : List PyStr) : PyStr := (lines.map lineText).flatten

/-- The inner _mav_output... helper of maverick_merger: first line is the
header, the rest is the data; the returned text includes the header only
when get_header is True. -/
def mav_output_read (lines : List PyStr) (get_header : Bool) : PyStr :=
  match lines with
  | [] => []
  | h :: rest =>
    if get_header then lineText h ++ fileText rest else fileText rest

/-- Python dict assignment d[k] = v: overwrite in place or append. -/
def dictInsert (d : List (PyStr × ℚ)) (k : PyStr) (v : ℚ) : List (PyStr × ℚ) :=
  match d with
  | [] => [(k, v)]
  | (k0, v0) :: rest => if k0 = k then (k0, v) :: rest else (k0, v0) :: dictInsert rest k v

/-- Python max(d, key=d.get) keeps the first key whose value no later value
strictly exceeds. -/
def pyDictMaxGo (bk : PyStr) (bv : ℚ) : List (PyStr × ℚ) → PyStr
  | [] => bk
  | (k, v) :: rest => if bv < v then pyDictMaxGo k v rest else pyDictMaxGo bk bv rest

/-- Python max over the keys of a dict with the value function as key;
none models the ValueError on an empty dict. -/
def pyDictMax : List (PyStr × ℚ) → Option PyStr
  | [] => none
  | (k, v) :: rest => some (pyDictMaxGo k v rest)

/-- The apostrophe character, used in the fixed report sentence. -/
def apos : Char := Char.ofNat 39

/-- The text written to bestK/TI_integration.txt for a best-K string. -/
def tiReportText (bestk : PyStr) : PyStr :=
  ("MavericK").data ++ [apos] ++ ("s estimation test revealed that the best value of ").data
    ++ [apos, 'K', apos] ++ (" is: ").data ++ bestk ++ ['\n']

/-- The _ti_test step of maverick_merger: take the dict key with maximal
log-evidence, replace every K character by 1 (the one-character pattern of
str.replace), write the report sentence, and return [int(bestk)]. none
models the exceptions of max on an empty dict and of int on a non-digit
string. -/
def ti_test (log_evidence_mv : List (PyStr × ℚ)) : Option (PyStr × List Nat) :=
  match pyDictMax log_evidence_mv with
  | none => none
  | some key =>
    let bestk := key.map fun c => if c == 'K' then '1' else c
    match pyInt bestk with
    | none => none
    | some n => some (tiReportText bestk, [n])

/-- The dict update done for outputEvidence.csv only: record
float(data.split(",")[colNum]) under the key data.split(",")[0]. none
models an IndexError from the column index; val models Python float(). -/
def evidRecord (val : PyStr → ℚ) (isEvid : Bool) (colNum : Int) (data : PyStr)
    (dict : List (PyStr × ℚ)) : Option (List (PyStr × ℚ)) :=
  if isEvid then
    match pyIndex (splitOnChar ',' data) 0, pyIndex (splitOnChar ',' data) colNum with
    | some key, some cell => some (dictInsert dict key (val cell))
    | _, _ => none
  else some dict

/-- outfile.write(data): prepend the parsed text of the current K to the
text written by the rest of the loop. -/
def mergeStep (data : PyStr) (res : Option (PyStr × List (PyStr × ℚ))) :
    Option (PyStr × List (PyStr × ℚ)) :=
  match res with
  | some (txt, d) => some (data ++ txt, d)
  | none => none

/-- The per-filename loop of maverick_merger: parse the per-K file (header
kept only for the first K), update the evidence dict when the file is
outputEvidence.csv, and append the parsed text to the merged file. -/
def mergeFileLoop (val : PyStr → ℚ) (files : Nat → List PyStr) (isEvid : Bool) (colNum : Int) :
    List Nat → Bool → List (PyStr × ℚ) → Option (PyStr × List (PyStr × ℚ))
  | [], _, dict => some ([], dict)
  | k :: ks, header, dict =>
    match evidRecord val isEvid colNum (mav_output_read (files k) header) dict with
    | none => none
    | some dict1 =>
      mergeStep (mav_output_read (files k) header)
        (mergeFileLoop val files isEvid colNum ks false dict1)

/-- The on-disk inputs of maverick_merger: the parameter file lines and,
for each K, the lines of mav_K<k>/outputEvidence.csv and
mav_K<k>/outputEvidenceDetails.csv. -/
structure MavInput where
  params : List PyStr
  evid : Nat → List PyStr
  details : Nat → List PyStr

/-- The observable result of maverick_merger: the two merged file texts,
the log_evidence_mv dict, and (when no_tests is False) the TI_integration
report text with the returned best-K list. -/
structure MergerOut where
  evidText : PyStr
  detailsText : PyStr
  evDict : List (PyStr × ℚ)
  bestk : Option (PyStr × List Nat)
deriving DecidableEq

/-- maverick_merger from maverick_wrapper.py. The parameter file is
re-scanned for each of the two evidence file names, exactly as in the
source; the evidence dict is only updated for outputEvidence.csv. -/
def maverick_merger (val : PyStr → ℚ) (inp : MavInput) (k_list : List Nat) (no_tests : Bool) :
    Option MergerOut :=
  (mav_params_scan inp.params).bind fun use_ti =>
    (mergeFileLoop val inp.evid true (if use_ti then -2 else -4) k_list true []).bind fun ev =>
      (mav_params_scan inp.params).bind fun use_ti2 =>
        (mergeFileLoop val inp.details false (if use_ti2 then -2 else -4) k_list true
            ev.2).bind fun det =>
          if no_tests = false then
            (ti_test det.2).map fun res => ⟨ev.1, det.1, det.2, some res⟩
          else some ⟨ev.1, det.1, det.2, none⟩

/-! ## Concrete MavericK input for the best-K defect -/

/-- A two-K MavericK output layout with thermodynamic integration on: the
evidence rows carry keys K1 and K2 and TI log-evidence 5 and 7. -/
def c1Header : PyStr := ("K,logEvidence_TI,logEvidence_TI_SE").data

/-- Lines of mav_K<k>/outputEvidence.csv for the concrete input. -/
def c1EvidLines : Nat → List PyStr := fun k =>
  if k = 1 then [c1Header, ("K1,5,1").data] else [c1Header, ("K2,7,1").data]

/-- Lines of mav_K<k>/outputEvidenceDetails.csv for the concrete input. -/
def c1DetailLines : Nat → List PyStr := fun _ => [("h1,h2").data, ("d1,d2").data]

/-- Python float() on the two numeric fields of the concrete input. -/
def c1Val : PyStr → ℚ := fun s => if s = ['7'] then 7 else 5

/-- The complete concrete maverick_merger input. -/
def c1Input : MavInput :=
  ⟨[("thermodynamic_on t").data], c1EvidLines, c1DetailLines⟩

/-! ## Bootstrap normalization (maverick_normalization) -/

/-- One entry of the normalization result dict. -/
structure NormEntry where
  norm_mean : ℚ
  lower_limit : ℚ
  upper_limit : ℚ
deriving DecidableEq

/-- np.mean of a list of rationals. -/
def listMean (l : List ℚ) : ℚ := l.sum / l.length

/-- np.percentile with the default linear interpolation, applied to an
already sorted array exactly as maverick_normalization does. -/
def npPercentile (a : List ℚ) (q : ℚ) : ℚ :=
  let pos : ℚ := q / 100 * ((a.length : ℚ) - 1)
  let i : Nat := (⌊pos⌋).toNat
  let x := a.getD i 0
  let y := a.getD (i + 1) x
  x + (pos - (⌊pos⌋ : ℚ)) * (y - x)

/-- One row of the z matrix: the sorted list of the exponentiated Gaussian
draws for one K. ex models np.exp and rnorm models numpy.random.normal,
indexed by the draw number. -/
def sortedExpDraws (ex : ℚ → ℚ) (rnorm : ℚ → ℚ → Nat → ℚ) (m sd : ℚ) (draws : Nat) : List ℚ :=
  ((List.range draws).map fun j => ex (rnorm m sd j)).mergeSort fun a b => decide (a ≤ b)

/-- maverick_normalization from maverick_wrapper.py: for each index i of
klist, the sample mean and the 2.5th and 97.5th percentiles of the sorted
exponentiated draws from the Gaussian with the i-th mean and standard
deviation. -/
def maverick_normalization (ex : ℚ → ℚ) (rnorm : ℚ → ℚ → Nat → ℚ)
    (x_mean x_sd : List ℚ) (klist : List Nat) (draws : Nat) : List (Nat × NormEntry) :=
  (List.range klist.length).map fun i =>
    (i, { norm_mean := listMean (sortedExpDraws ex rnorm (x_mean.getD i 0) (x_sd.getD i 0) draws),
          lower_limit :=
            npPercentile (sortedExpDraws ex rnorm (x_mean.getD i 0) (x_sd.getD i 0) draws) (5 / 2),
          upper_limit :=
            npPercentile (sortedExpDraws ex rnorm (x_mean.getD i 0) (x_sd.getD i 0) draws)
              (195 / 2) })

/-! ## Lemmas and claim theorems -/

/-! ## Decimal-rendering lemmas -/

theorem natCharsAux_eq (fuel : Nat) : ∀ n : Nat, n ≤ fuel →
    natCharsAux fuel n = ((Nat.digits 10 n).map digitChar).reverse := by
  induction fuel with
  | zero =>
    intro n hn
    interval_cases n
    simp [natCharsAux]
  | succ fuel ih =>
    intro n hn
    by_cases hz : n = 0
    · subst hz; simp [natCharsAux]
    · have hpos : 0 < n := Nat.pos_of_ne_zero hz
      have hdiv : n / 10 < n := Nat.div_lt_self hpos (by norm_num)
      have hfuel : n / 10 ≤ fuel := by omega
      rw [natCharsAux, if_neg hz, ih _ hfuel,
        Nat.digits_def' (show (1 : Nat) < 10 by norm_num) hpos]
      simp

theorem natChars_eq (n : Nat) :
    natChars n = if n = 0 then ['0'] else ((Nat.digits 10 n).map digitChar).reverse := by
  by_cases hz : n = 0
  · simp [natChars, hz]
  · simp [natChars, hz, natCharsAux_eq n n le_rfl]

theorem digitChar_lt_inj {a b : Nat} (ha : a < 10) (hb : b < 10)
    (h : digitChar a = digitChar b) : a = b := by
  revert h
  interval_cases a <;> interval_cases b <;> decide

theorem mem_natChars {n : Nat} {c : Char} (hc : c ∈ natChars n) :
    ∃ d, d < 10 ∧ c = digitChar d := by
  rw [natChars_eq] at hc
  by_cases hz : n = 0
  · rw [if_pos hz] at hc
    simp at hc
    exact ⟨0, by norm_num, by rw [hc]; decide⟩
  · rw [if_neg hz] at hc
    rw [List.mem_reverse, List.mem_map] at hc
    obtain ⟨d, hd, rfl⟩ := hc
    exact ⟨d, Nat.digits_lt_base (by norm_num) hd, rfl⟩

theorem underscore_not_mem_natChars (n : Nat) : '_' ∉ natChars n := by
  intro h
  obtain ⟨d, hd, he⟩ := mem_natChars h
  revert he
  interval_cases d <;> decide

theorem map_digitChar_cancel : ∀ l₁ l₂ : List Nat,
    (∀ d ∈ l₁, d < 10) → (∀ d ∈ l₂, d < 10) →
    l₁.map digitChar = l₂.map digitChar → l₁ = l₂ := by
  intro l₁
  induction l₁ with
  | nil =>
    intro l₂ _ _ h
    cases l₂ with
    | nil => rfl
    | cons y ys => simp at h
  | cons x xs ih =>
    intro l₂ h₁ h₂ h
    cases l₂ with
    | nil => simp at h
    | cons y ys =>
      simp only [List.map_cons, List.cons.injEq] at h
      have hx : x = y :=
        digitChar_lt_inj (h₁ x (by simp)) (h₂ y (by simp)) h.1
      have hxs : xs = ys :=
        ih ys (fun d hd => h₁ d (by simp [hd])) (fun d hd => h₂ d (by simp [hd])) h.2
      rw [hx, hxs]

theorem natChars_injective : Function.Injective natChars := by
  intro n m h
  rw [natChars_eq, natChars_eq] at h
  by_cases hn : n = 0 <;> by_cases hm : m = 0
  · omega
  · exfalso
    rw [if_pos hn, if_neg hm] at h
    have hne : Nat.digits 10 m ≠ [] := Nat.digits_ne_nil_iff_ne_zero.mpr hm
    cases hd : Nat.digits 10 m with
    | nil => exact hne hd
    | cons d ds =>
      rw [hd] at h
      have h' : (Nat.digits 10 m).map digitChar = ['0'] := by
        rw [hd]
        have := congrArg List.reverse h
        simpa using this.symm
      rw [hd] at h'
      simp only [List.map_cons, List.cons.injEq] at h'
      obtain ⟨hd0, hds⟩ := h'
      have hlt : d < 10 := Nat.digits_lt_base (by norm_num) (by rw [hd]; simp)
      have : d = 0 := by
        have : digitChar d = digitChar 0 := by rw [hd0]; decide
        exact digitChar_lt_inj hlt (by norm_num) this
      subst this
      have hds' : ds = [] := List.map_eq_nil_iff.mp hds
      subst hds'
      have := Nat.ofDigits_digits 10 m
      rw [hd] at this
      simp [Nat.ofDigits] at this
      exact hm this.symm
  · exfalso
    rw [if_neg hn, if_pos hm] at h
    have hne : Nat.digits 10 n ≠ [] := Nat.digits_ne_nil_iff_ne_zero.mpr hn
    cases hd : Nat.digits 10 n with
    | nil => exact hne hd
    | cons d ds =>
      have h' : (Nat.digits 10 n).map digitChar = ['0'] := by
        rw [hd]
        have := congrArg List.reverse h
        rw [hd] at this
        simpa using this
      rw [hd] at h'
      simp only [List.map_cons, List.cons.injEq] at h'
      obtain ⟨hd0, hds⟩ := h'
      have hlt : d < 10 := Nat.digits_lt_base (by norm_num) (by rw [hd]; simp)
      have : d = 0 := by
        have : digitChar d = digitChar 0 := by rw [hd0]; decide
        exact digitChar_lt_inj hlt (by norm_num) this
      subst this
      have hds' : ds = [] := List.map_eq_nil_iff.mp hds
      subst hds'
      have := Nat.ofDigits_digits 10 n
      rw [hd] at this
      simp [Nat.ofDigits] at this
      exact hn this.symm
  · rw [if_neg hn, if_neg hm] at h
    have h' := List.reverse_injective h
    have hdig := map_digitChar_cancel _ _
      (fun d hd => Nat.digits_lt_base (by norm_num) hd)
      (fun d hd => Nat.digits_lt_base (by norm_num) hd) h'
    have := congrArg (Nat.ofDigits 10) hdig
    rwa [Nat.ofDigits_digits, Nat.ofDigits_digits] at this

theorem append_sep_cancel (sep : Char) : ∀ a b s t : List Char,
    sep ∉ a → sep ∉ b → a ++ sep :: s = b ++ sep :: t → a = b ∧ s = t := by
  intro a
  induction a with
  | nil =>
    intro b s t _ hb h
    cases b with
    | nil => simpa using h
    | cons y ys =>
      simp only [List.nil_append, List.cons_append, List.cons.injEq] at h
      exact absurd (by simp [← h.1]) hb
  | cons x xs ih =>
    intro b s t ha hb h
    cases b with
    | nil =>
      simp only [List.nil_append, List.cons_append, List.cons.injEq] at h
      exact absurd (by simp [h.1]) ha
    | cons y ys =>
      simp only [List.cons_append, List.cons.injEq] at h
      have := ih ys s t (fun hx => ha (by simp [hx])) (fun hx => hb (by simp [hx])) h.2
      exact ⟨by rw [h.1, this.1], this.2⟩

/-! ## Dispatcher lemmas -/

theorem runprogram_status_of_ok (prog : WrappedProg) (outpath : PyStr) (log0 : Bool)
    (K rep : Nat) {rc : Int} (h : rc = 0) :
    (runprogram prog outpath log0 K rep rc).status = (0, none) := by
  simp [runprogram, h]

theorem runprogram_status_of_fail (prog : WrappedProg) (outpath : PyStr) (log0 : Bool)
    (K rep : Nat) {rc : Int} (h : rc ≠ 0) :
    (runprogram prog outpath log0 K rep rc).status =
      (-1, some (outputFilePath prog outpath K rep)) := by
  simp [runprogram, h]

theorem poolMap_all_ok (prog : WrappedProg) (outpath : PyStr) (log0 : Bool)
    (exec : Nat × Nat → Int) (l : List (Nat × Nat)) (h : ∀ j ∈ l, exec j = 0) :
    poolMap prog outpath log0 exec l = l.map fun _ => ((0 : Int), none) := by
  unfold poolMap
  induction l with
  | nil => rfl
  | cons j js ih =>
    simp only [List.map_cons]
    rw [runprogram_status_of_ok prog outpath log0 j.1 j.2 (h j (by simp)),
      ih (fun j hj => h j (by simp [hj]))]

theorem errorList_all_ok (l : List (Nat × Nat)) :
    errorList (l.map fun _ => ((0 : Int), (none : Option PyStr))) = [] := by
  unfold errorList
  induction l with
  | nil => rfl
  | cons j js ih => simpa using ih

theorem filter_ok_all_ok (l : List (Nat × Nat)) :
    ((l.map fun _ => ((0 : Int), (none : Option PyStr))).filter
      fun x => x.1 == 0) = l.map fun _ => ((0 : Int), none) := by
  induction l with
  | nil => rfl
  | cons j js ih => simpa using ih

/-! ## Claim C5: output-path distinctness -/

/-- C5 counterexample: the claim says that for fastStructure, distinct K
values give distinct output paths computed by runprogram; but the
fastStructure branch computes the constant path outpath/fS_run_K, so the
jobs K=2 and K=3 receive the same output path. -/
theorem C5_counterexample :
    outputFilePath .fastStructure ['o'] 2 1 = outputFilePath .fastStructure ['o'] 3 1 ∧
      (2 : Nat) ≠ 3 := by
  exact ⟨rfl, by decide⟩

/-- C5 (amended): for STRUCTURE, distinct (K, replicate) pairs always get
distinct output paths, because the name K<K>_rep<rep> embeds both numbers
unambiguously; for fastStructure the path computed by runprogram is the
same constant outpath/fS_run_K for every K (the external program itself
appends the K to the files it writes). -/
theorem C5_output_paths (outpath : PyStr) (K r K' r' : Nat)
    (h : (K, r) ≠ (K', r')) :
    outputFilePath .structureProg outpath K r ≠ outputFilePath .structureProg outpath K' r' ∧
      outputFilePath .fastStructure outpath K r = outputFilePath .fastStructure outpath K' r' := by
  refine ⟨?_, rfl⟩
  intro he
  unfold outputFilePath at he
  have h1 := List.append_cancel_left he
  simp only [List.cons.injEq, true_and] at h1
  obtain ⟨hK, htail⟩ := append_sep_cancel '_' _ _ _ _
    (underscore_not_mem_natChars K) (underscore_not_mem_natChars K') h1
  simp only [List.cons.injEq, true_and] at htail
  exact h (by rw [natChars_injective hK, natChars_injective htail, Prod.mk.injEq]; exact ⟨rfl, rfl⟩)

/-- Witness for C5: evaluates the amended theorem at the concrete pairs
(1, 2) and (3, 4). -/
theorem C5_output_paths_witness :
    outputFilePath .structureProg ['o'] 1 2 ≠ outputFilePath .structureProg ['o'] 3 4 ∧
      outputFilePath .fastStructure ['o'] 1 2 = outputFilePath .fastStructure ['o'] 3 4 :=
  C5_output_paths ['o'] 1 2 3 4 (by decide)

/-! ## Claim C9: the shared arg.log flag -/

/-- C9: a failing external process (non-zero exit code) makes runprogram
set the shared arg.log flag to True, so the .stlog file for that job is
written; any job that starts with the flag already set also writes its
.stlog file; a successful job leaves the flag unchanged. -/
theorem C9_runprogram_log_flag (prog : WrappedProg) (outpath : PyStr) (log0 : Bool)
    (K rep : Nat) (rc : Int) :
    (rc ≠ 0 → (runprogram prog outpath log0 K rep rc).log = true ∧
      (runprogram prog outpath log0 K rep rc).logFile = some (stlogPath outpath K rep)) ∧
    (rc = 0 → (runprogram prog outpath log0 K rep rc).log = log0) ∧
    (log0 = true → (runprogram prog outpath log0 K rep rc).logFile =
      some (stlogPath outpath K rep)) := by
  refine ⟨fun h => ?_, fun h => ?_, fun h => ?_⟩
  · simp [runprogram, h]
  · simp [runprogram, h]
  · by_cases hrc : rc = 0 <;> simp [runprogram, hrc, h]

/-- Witness for C9 at concrete inputs: a failing job (exit code 1) starting
with the flag unset, a successful job starting with the flag unset, and a
successful job starting with the flag set. -/
theorem C9_runprogram_log_flag_witness :
    (runprogram .structureProg ['o'] false 1 2 1).log = true ∧
      (runprogram .structureProg ['o'] false 1 2 0).log = false ∧
      (runprogram .structureProg ['o'] true 1 2 0).logFile = some (stlogPath ['o'] 1 2) :=
  ⟨((C9_runprogram_log_flag .structureProg ['o'] false 1 2 1).1 (by decide)).1,
    (C9_runprogram_log_flag .structureProg ['o'] false 1 2 0).2.1 rfl,
    (C9_runprogram_log_flag .structureProg ['o'] true 1 2 0).2.2 rfl⟩

/-! ## Claim C3: fault isolation of a single failing job -/

/-- C3: in a dispatched batch where exactly one job has a non-zero external
exit code, the worker pool still returns a status for every job (the
embedded runprogram is a total function, so no exception escapes it), the
failure list holds exactly the failing job with its output path, and the
other N-1 jobs are counted as successes. -/
theorem C3_single_failure_isolation (prog : WrappedProg) (outpath : PyStr) (log0 : Bool)
    (exec : Nat × Nat → Int) (Ks replicates : List Nat)
    (l1 l2 : List (Nat × Nat)) (j0 : Nat × Nat)
    (hjobs : dispatchJobs Ks replicates prog = l1 ++ j0 :: l2)
    (hfail : exec j0 ≠ 0) (hok : ∀ j, j ∈ l1 ++ l2 → exec j = 0) :
    errorList (poolMap prog outpath log0 exec (dispatchJobs Ks replicates prog)) =
        [some (outputFilePath prog outpath j0.1 j0.2)] ∧
      ((poolMap prog outpath log0 exec (dispatchJobs Ks replicates prog)).filter
          fun x => x.1 == 0).length =
        (dispatchJobs Ks replicates prog).length - 1 ∧
      (poolMap prog outpath log0 exec (dispatchJobs Ks replicates prog)).length =
        (dispatchJobs Ks replicates prog).length := by
  rw [hjobs]
  have hl1 : poolMap prog outpath log0 exec l1 = l1.map fun _ => ((0 : Int), none) :=
    poolMap_all_ok prog outpath log0 exec l1 (fun j hj => hok j (by simp [hj]))
  have hl2 : poolMap prog outpath log0 exec l2 = l2.map fun _ => ((0 : Int), none) :=
    poolMap_all_ok prog outpath log0 exec l2 (fun j hj => hok j (by simp [hj]))
  have hsplit : poolMap prog outpath log0 exec (l1 ++ j0 :: l2) =
      poolMap prog outpath log0 exec l1 ++
        (runprogram prog outpath log0 j0.1 j0.2 (exec j0)).status ::
          poolMap prog outpath log0 exec l2 := by
    unfold poolMap
    simp
  rw [hsplit, hl1, hl2, runprogram_status_of_fail prog outpath log0 j0.1 j0.2 hfail]
  refine ⟨?_, ?_, ?_⟩
  · unfold errorList
    rw [List.filter_append]
    have e1 : ((l1.map fun _ => ((0 : Int), (none : Option PyStr))).filter
        fun x => x.1 == -1) = [] := by
      induction l1 with
      | nil => rfl
      | cons j js ih => simpa using ih
    rw [e1]
    simp only [List.nil_append, List.filter_cons]
    norm_num
  · rw [List.filter_append, filter_ok_all_ok, List.filter_cons]
    norm_num [filter_ok_all_ok]
  · simp

/-- Witness for C3: a concrete batch of two STRUCTURE jobs in which only the
job (K, rep) = (2, 1) fails. -/
theorem C3_single_failure_isolation_witness :
    errorList (poolMap .structureProg ['o'] false
        (fun j => if j = (2, 1) then 1 else 0) (dispatchJobs [1, 2] [1] .structureProg)) =
      [some (outputFilePath .structureProg ['o'] 2 1)] ∧
    ((poolMap .structureProg ['o'] false (fun j => if j = (2, 1) then 1 else 0)
        (dispatchJobs [1, 2] [1] .structureProg)).filter fun x => x.1 == 0).length =
      (dispatchJobs [1, 2] [1] .structureProg).length - 1 ∧
    (poolMap .structureProg ['o'] false (fun j => if j = (2, 1) then 1 else 0)
        (dispatchJobs [1, 2] [1] .structureProg)).length =
      (dispatchJobs [1, 2] [1] .structureProg).length :=
  C3_single_failure_isolation .structureProg ['o'] false
    (fun j => if j = (2, 1) then 1 else 0) [1, 2] [1] [] [(1, 1)] (2, 1)
    (by decide) (by decide) (by decide)


/-! ## Records-grouping lemmas -/

theorem recLookup_cons (k0 : Nat) (l0 : List SRun) (rest : List (Nat × List SRun)) (k : Nat) :
    recLookup ((k0, l0) :: rest) k = if k0 = k then some l0 else recLookup rest k := rfl

theorem addRecord_cons (k0 : Nat) (l0 : List SRun) (rest : List (Nat × List SRun)) (r : SRun) :
    addRecord ((k0, l0) :: rest) r =
      if k0 = r.k then (k0, l0 ++ [r]) :: rest else (k0, l0) :: addRecord rest r := rfl

theorem recLookup_addRecord (r : SRun) (k : Nat) : ∀ recs : List (Nat × List SRun),
    recLookup (addRecord recs r) k =
      if k = r.k then some ((recLookup recs k).getD [] ++ [r]) else recLookup recs k := by
  intro recs
  induction recs with
  | nil =>
    rw [show addRecord [] r = [(r.k, [r])] from rfl]
    simp only [recLookup_cons]
    by_cases h : k = r.k
    · rw [if_pos h.symm, if_pos h]
      rfl
    · rw [if_neg (fun he => h he.symm), if_neg h]
  | cons e rest ih =>
    obtain ⟨k0, l0⟩ := e
    rw [addRecord_cons]
    by_cases h0 : k0 = r.k
    · rw [if_pos h0]
      simp only [recLookup_cons]
      by_cases h : k = r.k
      · have hk0 : k0 = k := by rw [h0, h]
        simp [hk0, h]
      · have hk0 : ¬ k0 = k := fun he => h (by rw [← he, h0])
        simp [hk0, h]
    · rw [if_neg h0]
      simp only [recLookup_cons]
      by_cases h1 : k0 = k
      · have hne : ¬ k = r.k := fun he => h0 (by rw [h1, he])
        simp [h1, hne]
      · simp [h1, ih]

theorem addRecord_keys (r : SRun) : ∀ recs : List (Nat × List SRun),
    (addRecord recs r).map Prod.fst =
      if r.k ∈ recs.map Prod.fst then recs.map Prod.fst
      else recs.map Prod.fst ++ [r.k] := by
  intro recs
  induction recs with
  | nil => simp [addRecord]
  | cons e rest ih =>
    obtain ⟨k0, l0⟩ := e
    by_cases h0 : k0 = r.k
    · subst h0; simp [addRecord]
    · have hne : ¬ r.k = k0 := fun he => h0 he.symm
      by_cases hm : r.k ∈ rest.map Prod.fst
      · simp [addRecord, h0, ih, hm, hne]
      · simp [addRecord, h0, ih, hm, hne]

theorem mem_keys_addRecord (r : SRun) (k : Nat) (recs : List (Nat × List SRun)) :
    k ∈ (addRecord recs r).map Prod.fst ↔ k ∈ recs.map Prod.fst ∨ k = r.k := by
  rw [addRecord_keys]
  split_ifs with hm
  · constructor
    · exact fun h => Or.inl h
    · rintro (h | rfl)
      · exact h
      · exact hm
  · simp [List.mem_append]

theorem nodup_keys_addRecord (r : SRun) (recs : List (Nat × List SRun))
    (h : (recs.map Prod.fst).Nodup) : ((addRecord recs r).map Prod.fst).Nodup := by
  rw [addRecord_keys]
  split_ifs with hm
  · exact h
  · simp [List.nodup_append, h, hm]

theorem addRecord_ne_nil (recs : List (Nat × List SRun)) (r : SRun) :
    addRecord recs r ≠ [] := by
  cases recs with
  | nil => simp [addRecord]
  | cons e rest =>
    obtain ⟨k0, l0⟩ := e
    by_cases h : k0 = r.k <;> simp [addRecord, h]

theorem foldl_addRecord_ne_nil (runs : List SRun) : ∀ recs : List (Nat × List SRun),
    recs ≠ [] → runs.foldl addRecord recs ≠ [] := by
  induction runs with
  | nil => intro recs h; simpa using h
  | cons r rs ih =>
    intro recs _
    exact ih (addRecord recs r) (addRecord_ne_nil recs r)

theorem recLookup_foldl (runs : List SRun) : ∀ (recs : List (Nat × List SRun)) (k : Nat),
    (recLookup (runs.foldl addRecord recs) k).getD [] =
      (recLookup recs k).getD [] ++ runs.filter fun r => r.k == k := by
  induction runs with
  | nil => intro recs k; simp
  | cons r rs ih =>
    intro recs k
    simp only [List.foldl_cons, List.filter_cons]
    rw [ih]
    by_cases h : r.k = k
    · have hk : k = r.k := h.symm
      rw [recLookup_addRecord, if_pos hk]
      simp [h, List.append_assoc]
    · have hk : ¬ k = r.k := fun he => h he.symm
      rw [recLookup_addRecord, if_neg hk]
      simp [h]

theorem mem_keys_foldl (runs : List SRun) : ∀ (recs : List (Nat × List SRun)) (k : Nat),
    k ∈ (runs.foldl addRecord recs).map Prod.fst ↔
      k ∈ recs.map Prod.fst ∨ ∃ r ∈ runs, r.k = k := by
  induction runs with
  | nil => intro recs k; simp
  | cons r rs ih =>
    intro recs k
    simp only [List.foldl_cons]
    rw [ih, mem_keys_addRecord]
    constructor
    · rintro ((h | rfl) | ⟨r', hr', rfl⟩)
      · exact Or.inl h
      · exact Or.inr ⟨r, by simp⟩
      · exact Or.inr ⟨r', by simp [hr']⟩
    · rintro (h | ⟨r', hr', rfl⟩)
      · exact Or.inl (Or.inl h)
      · rcases List.mem_cons.mp hr' with rfl | h'
        · exact Or.inl (Or.inr rfl)
        · exact Or.inr ⟨r', h', rfl⟩

theorem nodup_keys_foldl (runs : List SRun) : ∀ recs : List (Nat × List SRun),
    (recs.map Prod.fst).Nodup → ((runs.foldl addRecord recs).map Prod.fst).Nodup := by
  induction runs with
  | nil => intro recs h; simpa using h
  | cons r rs ih =>
    intro recs h
    exact ih (addRecord recs r) (nodup_keys_addRecord r recs h)

theorem harvestLoop_ok : ∀ (files : List (PyStr × ParseOutcome))
    (recs out : List (Nat × List SRun)),
    harvestLoop recs files = .ok out → out = (runsOf files).foldl addRecord recs := by
  intro files
  induction files with
  | nil =>
    intro recs out h
    simp only [harvestLoop] at h
    injection h with h
    simp [runsOf, h.symm]
  | cons e rest ih =>
    obtain ⟨f, o⟩ := e
    cases o with
    | ok r =>
      intro recs out h
      simp only [harvestLoop] at h
      have := ih (addRecord recs r) out h
      simp [runsOf, List.filterMap_cons] at this ⊢
      exact this
    | failed err => intro recs out h; simp only [harvestLoop] at h; cases h
    | unexpected vn v => intro recs out h; simp only [harvestLoop] at h; cases h

/-! ## Claims C7 and C8: the harvesting pass -/

/-- C7: on an empty _f glob, harvestFiles terminates the process with exit
status 1 (non-zero) and a message that names the results directory, before
any parse outcome is even consulted; and whenever harvestFiles returns
normally the dataset holds at least one record group, so an empty dataset
is never handed to the caller. -/
theorem C7_empty_glob_fatal (resultsdir : PyStr) (files : List (PyStr × ParseOutcome)) :
    harvestFiles resultsdir [] = .error (1, errNoFiles resultsdir) ∧
      (∃ pre, errNoFiles resultsdir = pre ++ resultsdir) ∧ (1 : Nat) ≠ 0 ∧
      (∀ d, harvestFiles resultsdir files = .ok d → d.records ≠ []) := by
  refine ⟨rfl, ⟨_, rfl⟩, by decide, ?_⟩
  intro d h
  unfold harvestFiles at h
  by_cases he : files.isEmpty
  · rw [if_pos he] at h
    cases h
  · rw [if_neg he] at h
    cases hl : harvestLoop [] files with
    | error e => rw [hl] at h; cases h
    | ok recs =>
      rw [hl] at h
      injection h with h
      subst h
      cases files with
      | nil => simp at he
      | cons e rest =>
        obtain ⟨f, o⟩ := e
        cases o with
        | ok r =>
          simp only [harvestLoop] at hl
          have hrecs := harvestLoop_ok rest (addRecord [] r) recs hl
          simp only [hrecs]
          exact foldl_addRecord_ne_nil (runsOf rest) (addRecord [] r) (addRecord_ne_nil [] r)
        | failed err => simp only [harvestLoop] at hl; cases hl
        | unexpected vn v => simp only [harvestLoop] at hl; cases hl

/-- Witness for C7 at a concrete results directory and file list. -/
theorem C7_empty_glob_fatal_witness :
    harvestFiles ['r'] [] = .error (1, errNoFiles ['r']) ∧
      (∃ pre, errNoFiles ['r'] = pre ++ ['r']) ∧ (1 : Nat) ≠ 0 ∧
      (∀ d, harvestFiles ['r'] [(['f'], .ok ⟨2, 5⟩)] = .ok d → d.records ≠ []) :=
  C7_empty_glob_fatal ['r'] [(['f'], .ok ⟨2, 5⟩)]

/-- C8: after a successful harvesting pass, sortedKs is strictly ascending
with no duplicates, its members are exactly the K values occurring among
the parsed run records, and each stored group records[k] holds exactly the
records with that K in file-discovery order. -/
theorem C8_harvest_grouping (resultsdir : PyStr) (files : List (PyStr × ParseOutcome))
    (d : HarvestData) (h : harvestFiles resultsdir files = .ok d) :
    d.sortedKs.Sorted (· < ·) ∧
      (∀ k, k ∈ d.sortedKs ↔ k ∈ (runsOf files).map SRun.k) ∧
      (∀ k l, recLookup d.records k = some l →
        l = (runsOf files).filter fun r => r.k == k) := by
  unfold harvestFiles at h
  by_cases he : files.isEmpty
  · rw [if_pos he] at h; cases h
  · rw [if_neg he] at h
    cases hl : harvestLoop [] files with
    | error e => rw [hl] at h; cases h
    | ok recs =>
      rw [hl] at h
      injection h with h
      subst h
      have hrecs : recs = (runsOf files).foldl addRecord [] := harvestLoop_ok files [] recs hl
      have hnodup : (recs.map Prod.fst).Nodup := by
        rw [hrecs]
        exact nodup_keys_foldl (runsOf files) [] (by simp)
      refine ⟨?_, ?_, ?_⟩
      · have hsorted : (List.insertionSort (· ≤ ·) (recs.map Prod.fst)).Sorted (· ≤ ·) :=
          List.sorted_insertionSort (· ≤ ·) (recs.map Prod.fst)
        have hperm : (recs.map Prod.fst).Perm
            (List.insertionSort (· ≤ ·) (recs.map Prod.fst)) :=
          (List.perm_insertionSort (· ≤ ·) (recs.map Prod.fst)).symm
        exact List.Sorted.lt_of_le hsorted (hperm.nodup hnodup)
      · intro k
        rw [(List.perm_insertionSort (· ≤ ·) (recs.map Prod.fst)).mem_iff, hrecs,
          mem_keys_foldl]
        simp [List.mem_map]
      · intro k l hlook
        rw [hrecs] at hlook
        have := recLookup_foldl (runsOf files) [] k
        rw [hlook] at this
        simpa [recLookup] using this

/-- Witness for C8: a concrete harvesting pass over two parsed files with
K values 2 and 1. -/
theorem C8_harvest_grouping_witness :
    (HarvestData.sortedKs ⟨[(2, [⟨2, 5⟩]), (1, [⟨1, 3⟩])], [1, 2]⟩).Sorted (· < ·) ∧
      (∀ k, k ∈ (HarvestData.sortedKs ⟨[(2, [⟨2, 5⟩]), (1, [⟨1, 3⟩])], [1, 2]⟩) ↔
        k ∈ (runsOf [(['f'], .ok ⟨2, 5⟩), (['g'], .ok ⟨1, 3⟩)]).map SRun.k) ∧
      (∀ k l, recLookup (HarvestData.records ⟨[(2, [⟨2, 5⟩]), (1, [⟨1, 3⟩])], [1, 2]⟩) k =
          some l →
        l = (runsOf [(['f'], .ok ⟨2, 5⟩), (['g'], .ok ⟨1, 3⟩)]).filter fun r => r.k == k) :=
  C8_harvest_grouping ['r'] [(['f'], .ok ⟨2, 5⟩), (['g'], .ok ⟨1, 3⟩)]
    ⟨[(2, [⟨2, 5⟩]), (1, [⟨1, 3⟩])], [1, 2]⟩ rfl

/-! ## Claim C2: the Evanno table rows -/

theorem writeEvannoRowsGo_spec (fmt : ℚ → PyStr) (d : EvannoData) : ∀ ks : List Nat,
    (∀ k ∈ ks, (d.records k).isSome ∧ (d.estLnProbMeans k).isSome ∧
      (d.estLnProbStdevs k).isSome) →
    ∃ rows, writeEvannoRowsGo fmt d ks = some rows ∧
      rows.map EvannoRow.k = ks ∧
      ∀ r ∈ rows,
        (∃ rs, d.records r.k = some rs ∧ r.reps = rs.length) ∧
        d.estLnProbMeans r.k = some r.mean ∧
        d.estLnProbStdevs r.k = some r.stdev ∧
        r.lnPKstr = renderOpt fmt (d.LnPK r.k) ∧
        r.lnPPKstr = renderOpt fmt (d.LnPPK r.k) ∧
        r.deltaKstr = renderOpt fmt (d.deltaK r.k) := by
  intro ks
  induction ks with
  | nil => intro _; exact ⟨[], rfl, rfl, by simp⟩
  | cons k ks ih =>
    intro h
    obtain ⟨hr, hm, hs⟩ := h k (by simp)
    obtain ⟨rs, hrs⟩ := Option.isSome_iff_exists.mp hr
    obtain ⟨m, hmm⟩ := Option.isSome_iff_exists.mp hm
    obtain ⟨s, hss⟩ := Option.isSome_iff_exists.mp hs
    obtain ⟨rows, hrows, hmap, hprops⟩ := ih (fun k' hk' => h k' (by simp [hk']))
    refine ⟨⟨k, rs.length, m, s, renderOpt fmt (d.LnPK k), renderOpt fmt (d.LnPPK k),
      renderOpt fmt (d.deltaK k)⟩ :: rows, ?_, ?_, ?_⟩
    · simp only [writeEvannoRowsGo, hrs, hmm, hss, hrows]
    · simp [hmap]
    · intro r hr'
      rcases List.mem_cons.mp hr' with rfl | h'
      · exact ⟨⟨rs, hrs, rfl⟩, hmm, hss, rfl, rfl, rfl⟩
      · exact hprops r h'

/-- C2: writeEvannoTableToFile emits one data row per K, in the order of
sortedKs; each row carries the replicate count of its K together with the
mean and stdev of the per-replicate log-probability, and each of the three
derivative columns renders the map value through the percent-f format when
the K is present and as the literal NA marker when it is absent; the NA
marker is neither the empty field nor a zero digit. -/
theorem C2_evanno_rows (fmt : ℚ → PyStr) (d : EvannoData)
    (h : ∀ k ∈ d.sortedKs, (d.records k).isSome ∧ (d.estLnProbMeans k).isSome ∧
      (d.estLnProbStdevs k).isSome) :
    (∃ rows, writeEvannoTableToFile fmt d = some rows ∧
      rows.map EvannoRow.k = d.sortedKs ∧
      ∀ r ∈ rows,
        (∃ rs, d.records r.k = some rs ∧ r.reps = rs.length) ∧
        d.estLnProbMeans r.k = some r.mean ∧
        d.estLnProbStdevs r.k = some r.stdev ∧
        (∀ v, d.LnPK r.k = some v → r.lnPKstr = fmt v) ∧
        (d.LnPK r.k = none → r.lnPKstr = ['N', 'A']) ∧
        (∀ v, d.LnPPK r.k = some v → r.lnPPKstr = fmt v) ∧
        (d.LnPPK r.k = none → r.lnPPKstr = ['N', 'A']) ∧
        (∀ v, d.deltaK r.k = some v → r.deltaKstr = fmt v) ∧
        (d.deltaK r.k = none → r.deltaKstr = ['N', 'A'])) ∧
      (['N', 'A'] : PyStr) ≠ [] ∧ (['N', 'A'] : PyStr) ≠ ['0'] := by
  refine ⟨?_, by decide, by decide⟩
  obtain ⟨rows, hrows, hmap, hprops⟩ := writeEvannoRowsGo_spec fmt d d.sortedKs h
  refine ⟨rows, hrows, hmap, ?_⟩
  intro r hr
  obtain ⟨hrec, hmean, hstdev, h1, h2, h3⟩ := hprops r hr
  refine ⟨hrec, hmean, hstdev, ?_, ?_, ?_, ?_, ?_, ?_⟩
  · intro v hv; rw [h1, hv]; rfl
  · intro hv; rw [h1, hv]; rfl
  · intro v hv; rw [h2, hv]; rfl
  · intro hv; rw [h2, hv]; rfl
  · intro v hv; rw [h3, hv]; rfl
  · intro hv; rw [h3, hv]; rfl

/-- Witness for C2: a one-K dataset with all per-K maps defined at K = 2
except the three derivative maps. -/
theorem C2_evanno_rows_witness :
    ∃ rows, writeEvannoTableToFile (fun _ => ['x'])
        ⟨fun k => if k = 2 then some [⟨2, 5⟩] else none, [2],
          fun k => if k = 2 then some 5 else none,
          fun k => if k = 2 then some 1 else none,
          fun _ => none, fun _ => none, fun _ => none⟩ = some rows ∧
      rows.map EvannoRow.k = [2] := by
  obtain ⟨rows, h1, h2, _⟩ := (C2_evanno_rows (fun _ => ['x'])
    ⟨fun k => if k = 2 then some [⟨2, 5⟩] else none, [2],
      fun k => if k = 2 then some 5 else none,
      fun k => if k = 2 then some 1 else none,
      fun _ => none, fun _ => none, fun _ => none⟩ (by decide)).1
  exact ⟨rows, h1, h2⟩

/-! ## Claim C6: merged evidence files -/

theorem mav_output_read_true (lines : List PyStr) :
    mav_output_read lines true = fileText lines := by
  cases lines with
  | nil => rfl
  | cons h rest => simp [mav_output_read, fileText, lineText]

theorem mav_output_read_false (lines : List PyStr) :
    mav_output_read lines false = fileText (lines.drop 1) := by
  cases lines with
  | nil => rfl
  | cons h rest => simp [mav_output_read]

theorem mergeStep_some (data : PyStr) (res : Option (PyStr × List (PyStr × ℚ)))
    (txt : PyStr) (dict' : List (PyStr × ℚ)) (h : mergeStep data res = some (txt, dict')) :
    ∃ txt0, res = some (txt0, dict') ∧ txt = data ++ txt0 := by
  cases res with
  | none => exact Option.noConfusion h
  | some p =>
    obtain ⟨txt0, d0⟩ := p
    simp only [mergeStep] at h
    injection h with h
    injection h with h1 h2
    exact ⟨txt0, by rw [h2], h1.symm⟩

theorem mergeFileLoop_text (val : PyStr → ℚ) (files : Nat → List PyStr) (isEvid : Bool)
    (colNum : Int) : ∀ (ks : List Nat) (hdr : Bool) (dict : List (PyStr × ℚ))
    (txt : PyStr) (dict' : List (PyStr × ℚ)),
    mergeFileLoop val files isEvid colNum ks hdr dict = some (txt, dict') →
    txt = match ks with
      | [] => []
      | k0 :: ks' =>
        mav_output_read (files k0) hdr ++
          (ks'.map fun k => mav_output_read (files k) false).flatten := by
  intro ks
  induction ks with
  | nil =>
    intro hdr dict txt dict' h
    simp only [mergeFileLoop] at h
    injection h with h
    injection h with h1 h2
    exact h1.symm
  | cons k ks ih =>
    intro hdr dict txt dict' h
    simp only [mergeFileLoop] at h
    cases hrec0 : evidRecord val isEvid colNum (mav_output_read (files k) hdr) dict with
    | none => rw [hrec0] at h; exact Option.noConfusion h
    | some dict1 =>
      rw [hrec0] at h
      obtain ⟨txt0, hres, htxt⟩ := mergeStep_some _ _ _ _ h
      rw [htxt, ih false dict1 txt0 dict' hres]
      cases ks with
      | nil => simp
      | cons k1 rest => simp

/-- C6: for each of the two evidence file names, maverick_merger writes the
merged file by iterating k_list in its given order: the full text of the
first K file, header line included, followed by the texts of the remaining
K files each with its first (header) line stripped. -/
theorem C6_merged_files (val : PyStr → ℚ) (inp : MavInput) (k0 : Nat) (ks : List Nat)
    (no_tests : Bool) (out : MergerOut)
    (h : maverick_merger val inp (k0 :: ks) no_tests = some out) :
    out.evidText = fileText (inp.evid k0) ++
        (ks.map fun k => fileText ((inp.evid k).drop 1)).flatten ∧
      out.detailsText = fileText (inp.details k0) ++
        (ks.map fun k => fileText ((inp.details k).drop 1)).flatten := by
  unfold maverick_merger at h
  rw [Option.bind_eq_some] at h
  obtain ⟨use_ti, hscan, h⟩ := h
  rw [Option.bind_eq_some] at h
  obtain ⟨ev, hev, h⟩ := h
  rw [Option.bind_eq_some] at h
  obtain ⟨use_ti2, hscan2, h⟩ := h
  rw [Option.bind_eq_some] at h
  obtain ⟨det, hdet, h⟩ := h
  obtain ⟨evTxt, evD⟩ := ev
  obtain ⟨detTxt, detD⟩ := det
  have hout : out.evidText = evTxt ∧ out.detailsText = detTxt := by
    by_cases hn : no_tests = false
    · rw [if_pos hn] at h
      rw [Option.map_eq_some'] at h
      obtain ⟨res, _, hres⟩ := h
      rw [← hres]
      exact ⟨rfl, rfl⟩
    · rw [if_neg hn] at h
      injection h with h
      rw [← h]
      exact ⟨rfl, rfl⟩
  have hevT := mergeFileLoop_text val inp.evid true (if use_ti then -2 else -4)
    (k0 :: ks) true [] evTxt evD hev
  have hdetT := mergeFileLoop_text val inp.details false (if use_ti2 then -2 else -4)
    (k0 :: ks) true evD detTxt detD hdet
  simp only [mav_output_read_true, mav_output_read_false] at hevT hdetT
  rw [hout.1, hout.2, hevT, hdetT]
  exact ⟨rfl, rfl⟩

/-- Witness for C6: the concrete two-K MavericK layout. -/
theorem C6_merged_files_witness :
    ∃ out, maverick_merger c1Val c1Input [1, 2] false = some out ∧
      out.evidText = fileText (c1Input.evid 1) ++
        ([2].map fun k => fileText ((c1Input.evid k).drop 1)).flatten := by
  have hs : (maverick_merger c1Val c1Input [1, 2] false).isSome := by decide
  obtain ⟨out, hout⟩ := Option.isSome_iff_exists.mp hs
  exact ⟨out, hout, (C6_merged_files c1Val c1Input 1 [2] false out hout).1⟩

/-! ## Claim C1: the TI best-K step -/

/-- C1: evaluation of the embedded maverick_merger on the concrete two-K
layout with thermodynamic integration enabled. The extracted log-evidence
dict holds 5 for the first K (stored under the key K, the first header
cell, because the first parsed text keeps the header line) and 7 for K = 2
(stored under the key K2, the first cell of its data row). The maximal
entry is the one of K = 2, but _ti_test replaces the character K by 1 in
the key, so the report text and the returned best-K list carry 12 — which
is not the argmax K = 2 and not even a member of k_list. -/
theorem C1_bestk_defect :
    (maverick_merger c1Val c1Input [1, 2] false).map (fun o => o.evDict) =
        some [((['K'] : PyStr), (5 : ℚ)), ((['K', '2'] : PyStr), (7 : ℚ))] ∧
      (maverick_merger c1Val c1Input [1, 2] false).map (fun o => o.bestk.map Prod.snd) =
        some (some [12]) ∧
      (maverick_merger c1Val c1Input [1, 2] false).map (fun o => o.bestk.map Prod.fst) =
        some (some (tiReportText ['1', '2'])) ∧
      (5 : ℚ) < 7 ∧ (12 : Nat) ∉ ([1, 2] : List Nat) ∧ (12 : Nat) ≠ 2 := by
  refine ⟨by decide, by decide, by decide, by norm_num, by decide, by decide⟩

/-! ## Claim C10: the alpha count failsafe -/

/-- C10: when the parameter file supplies more than one comma-separated
value for alpha or for alphaPropSD and that count differs from the number
of K values, mav_alpha_failsafe terminates the whole process through
sys.exit with status 0, the success code — it neither raises an exception
(the outer Option is some) nor returns a dictionary to the caller. -/
theorem C10_alpha_mismatch_exit_zero (lines : List PyStr) (k_list : List Nat)
    (a p : Option (List PyStr))
    (hp : parseAlphaParams lines = some (a, p))
    (hbad : (∃ v, a = some v ∧ 1 < v.length ∧ v.length ≠ k_list.length) ∨
      ((∀ v, a = some v → ¬(1 < v.length ∧ v.length ≠ k_list.length)) ∧
        ∃ v, p = some v ∧ 1 < v.length ∧ v.length ≠ k_list.length)) :
    mav_alpha_failsafe lines k_list = some (.error 0) := by
  unfold mav_alpha_failsafe
  rw [hp]
  rcases hbad with ⟨v, rfl, hlen, hne⟩ | ⟨hga, v, rfl, hlen, hne⟩
  · have hpbad : checkAlphaParam (some v) k_list = .error 0 := by
      simp [checkAlphaParam, hlen, hne]
    simp [hpbad]
  · have hpbad : checkAlphaParam (some v) k_list = .error 0 := by
      simp [checkAlphaParam, hlen, hne]
    have hok : ∃ a2, checkAlphaParam a k_list = .ok a2 := by
      cases a with
      | none => exact ⟨none, rfl⟩
      | some va =>
        by_cases h1 : 1 < va.length
        · have h2 : va.length = k_list.length := by
            by_contra hne2
            exact hga va rfl ⟨h1, hne2⟩
          have h1b : 1 < k_list.length := h2 ▸ h1
          exact ⟨some (k_list.zip va), by simp [checkAlphaParam, h1, h2, h1b]⟩
        · exact ⟨none, by simp [checkAlphaParam, h1]⟩
    obtain ⟨a2, ha2⟩ := hok
    simp [ha2, hpbad]

/-- Witness for C10: an alpha line with three values against two K values
makes the failsafe exit with status 0. -/
theorem C10_alpha_mismatch_exit_zero_witness :
    mav_alpha_failsafe [("alpha\t0.1,0.2,0.3").data] [1, 2] = some (.error 0) :=
  C10_alpha_mismatch_exit_zero [("alpha\t0.1,0.2,0.3").data] [1, 2]
    (some (splitOnChar ',' (("0.1,0.2,0.3").data))) none (by decide)
    (Or.inl ⟨splitOnChar ',' (("0.1,0.2,0.3").data), rfl, by decide, by decide⟩)

/-! ## Claim C4: bootstrap normalization -/

theorem getD_replicate (n : Nat) (c x : ℚ) (i : Nat) :
    (List.replicate n c).getD i x = if i < n then c else x := by
  rw [List.getD_eq_getElem?_getD, List.getElem?_replicate]
  split_ifs <;> rfl

theorem listMean_replicate (n : Nat) (c : ℚ) (hn : 0 < n) :
    listMean (List.replicate n c) = c := by
  unfold listMean
  rw [List.sum_replicate, List.length_replicate]
  rw [nsmul_eq_mul]
  exact mul_div_cancel_left₀ c (Nat.cast_ne_zero.mpr hn.ne')

theorem npPercentile_replicate (n : Nat) (c : ℚ) (q : ℚ) (hn : 0 < n)
    (hq0 : 0 ≤ q) (hq1 : q ≤ 100) :
    npPercentile (List.replicate n c) q = c := by
  unfold npPercentile
  rw [List.length_replicate]
  have hn1 : (0 : ℚ) ≤ (n : ℚ) - 1 := by
    have : (1 : ℚ) ≤ (n : ℚ) := by exact_mod_cast hn
    linarith
  have hq100 : q / 100 ≤ 1 := by
    rw [div_le_one (by norm_num)]
    exact hq1
  have hq100' : 0 ≤ q / 100 := by positivity
  have hpos0 : 0 ≤ q / 100 * ((n : ℚ) - 1) := mul_nonneg hq100' hn1
  have hposle : q / 100 * ((n : ℚ) - 1) ≤ (n : ℚ) - 1 := by
    calc q / 100 * ((n : ℚ) - 1) ≤ 1 * ((n : ℚ) - 1) :=
          mul_le_mul_of_nonneg_right hq100 hn1
      _ = (n : ℚ) - 1 := one_mul _
  have hfl0 : 0 ≤ ⌊q / 100 * ((n : ℚ) - 1)⌋ := Int.floor_nonneg.mpr hpos0
  have hfle : ⌊q / 100 * ((n : ℚ) - 1)⌋ ≤ (n : ℤ) - 1 := by
    have h1 : ((n : ℤ) : ℚ) - 1 = (((n : ℤ) - 1 : ℤ) : ℚ) := by push_cast; ring
    have h2 : ⌊q / 100 * ((n : ℚ) - 1)⌋ ≤ ⌊(((n : ℤ) - 1 : ℤ) : ℚ)⌋ := by
      apply Int.floor_le_floor
      rw [← h1]
      push_cast
      exact hposle
    rwa [Int.floor_intCast] at h2
  have hi : (⌊q / 100 * ((n : ℚ) - 1)⌋).toNat < n := by omega
  dsimp only
  rw [getD_replicate, if_pos hi, getD_replicate]
  split_ifs <;> ring

theorem sortedExpDraws_const (ex : ℚ → ℚ) (rnorm : ℚ → ℚ → Nat → ℚ) (m : ℚ) (draws : Nat)
    (hr : ∀ m' j, rnorm m' 0 j = m') :
    sortedExpDraws ex rnorm m 0 draws = List.replicate draws (ex m) := by
  unfold sortedExpDraws
  have hmap : (List.range draws).map (fun j => ex (rnorm m 0 j)) =
      List.replicate draws (ex m) := by
    rw [List.eq_replicate_iff]
    constructor
    · simp
    · intro b hb
      rw [List.mem_map] at hb
      obtain ⟨j, _, rfl⟩ := hb
      rw [hr]
  rw [hmap]
  have hperm := List.mergeSort_perm (List.replicate draws (ex m)) fun a b => decide (a ≤ b)
  rw [List.eq_replicate_iff]
  exact ⟨by rw [hperm.length_eq, List.length_replicate],
    fun b hb => List.eq_of_mem_replicate (hperm.subset hb)⟩

/-- C4: the i-th entry of maverick_normalization reports the sample mean
and the 2.5th and 97.5th percentiles of the sorted, exponentiated Gaussian
draws for the i-th evidence mean and standard deviation; when that
standard deviation is 0 — so every Gaussian draw equals the mean — the
reported mean, lower limit and upper limit all equal exp(mean) exactly. -/
theorem C4_normalization (ex : ℚ → ℚ) (rnorm : ℚ → ℚ → Nat → ℚ)
    (x_mean x_sd : List ℚ) (klist : List Nat) (draws : Nat) (i : Nat)
    (hd : 0 < draws) (hi : i < klist.length) :
    (maverick_normalization ex rnorm x_mean x_sd klist draws).get? i =
      some (i,
        ⟨listMean (sortedExpDraws ex rnorm (x_mean.getD i 0) (x_sd.getD i 0) draws),
          npPercentile (sortedExpDraws ex rnorm (x_mean.getD i 0) (x_sd.getD i 0) draws)
            (5 / 2),
          npPercentile (sortedExpDraws ex rnorm (x_mean.getD i 0) (x_sd.getD i 0) draws)
            (195 / 2)⟩) ∧
      (x_sd.getD i 0 = 0 → (∀ m j, rnorm m 0 j = m) →
        (maverick_normalization ex rnorm x_mean x_sd klist draws).get? i =
          some (i, ⟨ex (x_mean.getD i 0), ex (x_mean.getD i 0), ex (x_mean.getD i 0)⟩)) := by
  have hbase : (maverick_normalization ex rnorm x_mean x_sd klist draws).get? i =
      some (i,
        ⟨listMean (sortedExpDraws ex rnorm (x_mean.getD i 0) (x_sd.getD i 0) draws),
          npPercentile (sortedExpDraws ex rnorm (x_mean.getD i 0) (x_sd.getD i 0) draws)
            (5 / 2),
          npPercentile (sortedExpDraws ex rnorm (x_mean.getD i 0) (x_sd.getD i 0) draws)
            (195 / 2)⟩) := by
    unfold maverick_normalization
    rw [List.get?_eq_getElem?, List.getElem?_map, List.getElem?_range hi]
    rfl
  refine ⟨hbase, fun hsd hr => ?_⟩
  rw [hbase, hsd, sortedExpDraws_const ex rnorm (x_mean.getD i 0) draws hr,
    listMean_replicate draws (ex (x_mean.getD i 0)) hd,
    npPercentile_replicate draws (ex (x_mean.getD i 0)) (5 / 2) hd (by norm_num) (by norm_num),
    npPercentile_replicate draws (ex (x_mean.getD i 0)) (195 / 2) hd (by norm_num)
      (by norm_num)]

/-- Witness for C4: one K with mean 3 and stdev 0, three draws, the
identity in place of exp and the constant sampler that a zero-sd Gaussian
is: every reported quantity collapses to the (exponentiated) mean 3. -/
theorem C4_normalization_witness :
    (maverick_normalization (fun q => q) (fun m _ _ => m) [3] [0] [7] 3).get? 0 =
      some (0, ⟨3, 3, 3⟩) :=
  (C4_normalization (fun q => q) (fun m _ _ => m) [3] [0] [7] 3 0 (by decide)
    (by decide)).2 rfl (fun m j => rfl)
